import Mathlib

/-!
Formal model of the `ProcessMonitor` core in `monitor.py` (with the broadcaster
hand-off from `web_app.py`), as a shallow embedding: the dict-of-lists data
store is an association list with Python-dict update semantics, every
psutil read is an explicit input (a value or a raised exception), and the
sampling loop of `run()` is a recursion over a finite trace of iterations.
Floats are modelled as rationals; machine timestamps as naturals.
-/

namespace ProcMon

/-- Python exception classes that the modelled code can raise or catch. -/
inductive PyErr where
  | keyError
  | typeError
  | attributeError
  | osError
deriving DecidableEq

/-- Values stored in the columns of `self.data`: floats (as rationals),
strings, and `datetime` timestamps (as abstract naturals). -/
inductive Val where
  | num (q : ℚ)
  | str (s : List Char)
  | time (t : Nat)
deriving DecidableEq

/-- Column keys of `self.data` are Python strings, modelled as char lists. -/
abbrev Key := List Char

/-- The `self.data` dict of lists: an association list in insertion order. -/
abbrev Store := List (Key × List Val)

/-- Python `d[k] = v`: overwrite the binding of the first occurrence of `k`,
or insert a fresh key at the end (dict insertion order). -/
def dictSet : Store → Key → List Val → Store
  | [], k, v => [(k, v)]
  | (k', c) :: rest, k, v =>
    if k' = k then (k, v) :: rest else (k', c) :: dictSet rest k v

/-- Python `d[k].append(v)`: append one value to the column bound to `k`;
raises `KeyError` when `k` is absent. -/
def dictAppend : Store → Key → Val → Except PyErr Store
  | [], _, _ => .error .keyError
  | (k', c) :: rest, k, v =>
    if k' = k then .ok ((k', c ++ [v]) :: rest)
    else (dictAppend rest k v).map (fun r => (k', c) :: r)

/-- Keys of the store, in insertion order (the DataFrame column order). -/
def keys (s : Store) : List Key := s.map Prod.fst

/-- Length of the column bound to `k` (0 when `k` is absent). -/
def colLen : Store → Key → Nat
  | [], _ => 0
  | (k', c) :: rest, k => if k' = k then c.length else colLen rest k

@[simp] lemma keys_nil : keys [] = [] := rfl

@[simp] lemma keys_cons (kv : Key × List Val) (s : Store) :
    keys (kv :: s) = kv.1 :: keys s := rfl

/-! Decimal rendering of naturals, as Python f-strings produce it, and its
injectivity (needed to know distinct per-core keys never collide). -/

/-- Character of a decimal digit. -/
def digitChar (d : Nat) : Char := Char.ofNat (48 + d)

/-- Inverse of `digitChar` on actual digits. -/
def charDigit (c : Char) : Nat := c.toNat - 48

lemma charDigit_digitChar : ∀ d : Nat, d < 10 → charDigit (digitChar d) = d := by decide

/-- Decimal rendering of a natural number, exactly as `f"{n}"`. -/
def natStr (n : Nat) : List Char :=
  if n = 0 then ['0'] else ((Nat.digits 10 n).map digitChar).reverse

lemma map_digitChar_inj {l₁ l₂ : List Nat} (h₁ : ∀ d ∈ l₁, d < 10) (h₂ : ∀ d ∈ l₂, d < 10)
    (h : l₁.map digitChar = l₂.map digitChar) : l₁ = l₂ := by
  have e₁ : (l₁.map digitChar).map charDigit = l₁ := by
    rw [List.map_map]
    exact List.map_congr_left (fun d hd => charDigit_digitChar d (h₁ d hd)) |>.trans l₁.map_id
  have e₂ : (l₂.map digitChar).map charDigit = l₂ := by
    rw [List.map_map]
    exact List.map_congr_left (fun d hd => charDigit_digitChar d (h₂ d hd)) |>.trans l₂.map_id
  rw [← e₁, ← e₂, h]

lemma natStr_injective : Function.Injective natStr := by
  intro n m h
  unfold natStr at h
  by_cases hn : n = 0 <;> by_cases hm : m = 0 <;> simp [hn, hm] at h ⊢
  · -- n = 0, m ≠ 0 : the digit list of m would have to be ['0']
    exfalso
    have hdig : (Nat.digits 10 m).map digitChar = ['0'] := by
      have := congrArg List.reverse h
      simpa using this.symm
    have hd0 : Nat.digits 10 m = [0] := by
      have h0 : ([0] : List Nat).map digitChar = ['0'] := by decide
      exact map_digitChar_inj (fun d hd => Nat.digits_lt_base (by norm_num) hd)
        (by intro d hd; simp at hd; simp [hd]) (hdig.trans h0.symm)
    have hofd := Nat.ofDigits_digits 10 m
    rw [hd0] at hofd
    simp [Nat.ofDigits] at hofd
    exact hm hofd.symm
  · -- n ≠ 0, m = 0 : symmetric
    exfalso
    have hdig : (Nat.digits 10 n).map digitChar = ['0'] := by
      have := congrArg List.reverse h
      simpa using this
    have hd0 : Nat.digits 10 n = [0] := by
      have h0 : ([0] : List Nat).map digitChar = ['0'] := by decide
      exact map_digitChar_inj (fun d hd => Nat.digits_lt_base (by norm_num) hd)
        (by intro d hd; simp at hd; simp [hd]) (hdig.trans h0.symm)
    have hofd := Nat.ofDigits_digits 10 n
    rw [hd0] at hofd
    simp [Nat.ofDigits] at hofd
    exact hn hofd.symm
  · have hmap : (Nat.digits 10 n).map digitChar = (Nat.digits 10 m).map digitChar := by
      have := congrArg List.reverse h
      simpa using this
    have := map_digitChar_inj (fun d hd => Nat.digits_lt_base (by norm_num) hd)
      (fun d hd => Nat.digits_lt_base (by norm_num) hd) hmap
    have := congrArg (Nat.ofDigits 10) this
    rwa [Nat.ofDigits_digits, Nat.ofDigits_digits] at this

/-! Column keys, exactly the f-strings built in `ProcessMonitor.__init__`:
`timestamp`, `system_load_{1,5,15}`, `cpu_{i}_percent`, and per process spec
`{name}_cpu_percent`, `{name}_memory_rss`, `{name}_status`. -/

/-- Key `"timestamp"`. -/
def tsKey : Key := "timestamp".data

/-- Key `"system_load_1"`. -/
def l1Key : Key := "system_load_1".data

/-- Key `"system_load_5"`. -/
def l5Key : Key := "system_load_5".data

/-- Key `"system_load_15"`. -/
def l15Key : Key := "system_load_15".data

/-- Key `f"cpu_{i}_percent"`. -/
def cpuKey (i : Nat) : Key := "cpu_".data ++ natStr i ++ "_percent".data

/-- Key `f"{proc_name}_cpu_percent"`. -/
def procCpuKey (n : Key) : Key := n ++ "_cpu_percent".data

/-- Key `f"{proc_name}_memory_rss"`. -/
def procMemKey (n : Key) : Key := n ++ "_memory_rss".data

/-- Key `f"{proc_name}_status"`. -/
def procStatusKey (n : Key) : Key := n ++ "_status".data

/-- The four columns created first in `__init__`. -/
def baseKeys : List Key := [tsKey, l1Key, l5Key, l15Key]

/-- Keys `cpu_{i}_percent .. cpu_{i+n-1}_percent` in order. -/
def cpuKeysFrom (i : Nat) : Nat → List Key
  | 0 => []
  | n + 1 => cpuKey i :: cpuKeysFrom (i + 1) n

/-- The three per-process columns for each configured name, in configured order. -/
def procKeys (names : List Key) : List Key :=
  names.flatMap (fun n => [procCpuKey n, procMemKey n, procStatusKey n])

/-- All column keys of `self.data` in insertion order. -/
def canonKeys (cpuCount : Nat) (names : List Key) : List Key :=
  baseKeys ++ cpuKeysFrom 0 cpuCount ++ procKeys names

/-! Distinctness of the generated keys.  Two keys built by appending distinct
constant suffixes can only be equal if one constant suffix ends the other;
we discharge all such comparisons by looking at reversed prefixes. -/

lemma rev_tail_of_append_eq {a₁ s₁ a₂ s₂ : List Char} (h : a₁ ++ s₁ = a₂ ++ s₂)
    (hl : s₁.length ≤ s₂.length) : s₁.reverse = s₂.reverse.take s₁.length := by
  have hr : s₁.reverse ++ a₁.reverse = s₂.reverse ++ a₂.reverse := by
    have := congrArg List.reverse h
    simpa [List.reverse_append] using this
  have h₁ : (s₁.reverse ++ a₁.reverse).take s₁.length = s₁.reverse := by
    have := List.take_left s₁.reverse a₁.reverse
    simpa using this
  have h₂ : (s₂.reverse ++ a₂.reverse).take s₁.length = s₂.reverse.take s₁.length := by
    rw [List.take_append_eq_append_take]
    have hz : s₁.length - s₂.reverse.length = 0 := by simp; omega
    rw [hz]
    simp
  rw [hr, h₂] at h₁
  exact h₁.symm

lemma append_tail_ne {u v : List Char}
    (h₁₂ : u.length ≤ v.length → u.reverse ≠ v.reverse.take u.length)
    (h₂₁ : v.length ≤ u.length → v.reverse ≠ u.reverse.take v.length) :
    ∀ a₁ a₂ : List Char, a₁ ++ u ≠ a₂ ++ v := by
  intro a₁ a₂ h
  rcases Nat.le_total u.length v.length with hl | hl
  · exact h₁₂ hl (rev_tail_of_append_eq h hl)
  · exact h₂₁ hl (rev_tail_of_append_eq h.symm hl)

lemma append_ne_const {s k : List Char}
    (h₁₂ : s.length ≤ k.length → s.reverse ≠ k.reverse.take s.length)
    (h₂₁ : k.length ≤ s.length → k.reverse ≠ s.reverse.take k.length)
    (a : List Char) : a ++ s ≠ k := by
  intro h
  exact append_tail_ne h₁₂ h₂₁ a [] (by simpa using h)

lemma natStr_ne_nil (i : Nat) : natStr i ≠ [] := by
  unfold natStr
  split
  · simp
  · simpa [Nat.digits_ne_nil_iff_ne_zero] using (by assumption : ¬ i = 0)

lemma getLast?_rev {α : Type} (l : List α) : l.reverse.getLast? = l.head? := by
  cases l with
  | nil => rfl
  | cons a t =>
    rw [List.reverse_cons, List.getLast?_append_of_ne_nil _ (by simp)]
    rfl

lemma natStr_getLast_digit (i : Nat) :
    ∃ d, d < 10 ∧ (natStr i).getLast? = some (digitChar d) := by
  unfold natStr
  split
  · exact ⟨0, by norm_num, by decide⟩
  · rename_i hi
    rw [getLast?_rev]
    rcases hD : Nat.digits 10 i with _ | ⟨d, ds⟩
    · exact absurd hD (by simpa [Nat.digits_ne_nil_iff_ne_zero] using hi)
    · refine ⟨d, Nat.digits_lt_base (by norm_num) (by rw [hD]; exact List.mem_cons_self d ds), ?_⟩
      simp [hD]

lemma cpuKey_ne_ts (i : Nat) : cpuKey i ≠ tsKey := by
  have h := append_tail_ne (u := "_percent".data) (v := tsKey)
    (by decide) (by decide) ("cpu_".data ++ natStr i) []
  simpa [cpuKey, tsKey, List.append_assoc] using h

lemma cpuKey_ne_l1 (i : Nat) : cpuKey i ≠ l1Key := by
  have h := append_tail_ne (u := "_percent".data) (v := l1Key)
    (by decide) (by decide) ("cpu_".data ++ natStr i) []
  simpa [cpuKey, l1Key, List.append_assoc] using h

lemma cpuKey_ne_l5 (i : Nat) : cpuKey i ≠ l5Key := by
  have h := append_tail_ne (u := "_percent".data) (v := l5Key)
    (by decide) (by decide) ("cpu_".data ++ natStr i) []
  simpa [cpuKey, l5Key, List.append_assoc] using h

lemma cpuKey_ne_l15 (i : Nat) : cpuKey i ≠ l15Key := by
  have h := append_tail_ne (u := "_percent".data) (v := l15Key)
    (by decide) (by decide) ("cpu_".data ++ natStr i) []
  simpa [cpuKey, l15Key, List.append_assoc] using h

lemma procCpuKey_ne_base (n : Key) : ∀ b ∈ baseKeys, procCpuKey n ≠ b := by
  intro b hb
  simp only [baseKeys, List.mem_cons, List.mem_singleton] at hb
  rcases hb with rfl | rfl | rfl | h
  · exact append_ne_const (s := "_cpu_percent".data) (k := tsKey) (by decide) (by decide) n
  · exact append_ne_const (s := "_cpu_percent".data) (k := l1Key) (by decide) (by decide) n
  · exact append_ne_const (s := "_cpu_percent".data) (k := l5Key) (by decide) (by decide) n
  · rw [(by simpa using h : b = l15Key)]
    exact append_ne_const (s := "_cpu_percent".data) (k := l15Key) (by decide) (by decide) n

lemma procMemKey_ne_base (n : Key) : ∀ b ∈ baseKeys, procMemKey n ≠ b := by
  intro b hb
  simp only [baseKeys, List.mem_cons, List.mem_singleton] at hb
  rcases hb with rfl | rfl | rfl | h
  · exact append_ne_const (s := "_memory_rss".data) (k := tsKey) (by decide) (by decide) n
  · exact append_ne_const (s := "_memory_rss".data) (k := l1Key) (by decide) (by decide) n
  · exact append_ne_const (s := "_memory_rss".data) (k := l5Key) (by decide) (by decide) n
  · rw [(by simpa using h : b = l15Key)]
    exact append_ne_const (s := "_memory_rss".data) (k := l15Key) (by decide) (by decide) n

lemma procStatusKey_ne_base (n : Key) : ∀ b ∈ baseKeys, procStatusKey n ≠ b := by
  intro b hb
  simp only [baseKeys, List.mem_cons, List.mem_singleton] at hb
  rcases hb with rfl | rfl | rfl | h
  · exact append_ne_const (s := "_status".data) (k := tsKey) (by decide) (by decide) n
  · exact append_ne_const (s := "_status".data) (k := l1Key) (by decide) (by decide) n
  · exact append_ne_const (s := "_status".data) (k := l5Key) (by decide) (by decide) n
  · rw [(by simpa using h : b = l15Key)]
    exact append_ne_const (s := "_status".data) (k := l15Key) (by decide) (by decide) n

lemma procCpuKey_ne_procMemKey (n₁ n₂ : Key) : procCpuKey n₁ ≠ procMemKey n₂ :=
  append_tail_ne (u := "_cpu_percent".data) (v := "_memory_rss".data)
    (by decide) (by decide) n₁ n₂

lemma procCpuKey_ne_procStatusKey (n₁ n₂ : Key) : procCpuKey n₁ ≠ procStatusKey n₂ :=
  append_tail_ne (u := "_cpu_percent".data) (v := "_status".data)
    (by decide) (by decide) n₁ n₂

lemma procMemKey_ne_procStatusKey (n₁ n₂ : Key) : procMemKey n₁ ≠ procStatusKey n₂ :=
  append_tail_ne (u := "_memory_rss".data) (v := "_status".data)
    (by decide) (by decide) n₁ n₂

lemma cpuKey_ne_procMemKey (i : Nat) (n : Key) : cpuKey i ≠ procMemKey n := by
  have h := append_tail_ne (u := "_percent".data) (v := "_memory_rss".data)
    (by decide) (by decide) ("cpu_".data ++ natStr i) n
  simpa [cpuKey, procMemKey, List.append_assoc] using h

lemma cpuKey_ne_procStatusKey (i : Nat) (n : Key) : cpuKey i ≠ procStatusKey n := by
  have h := append_tail_ne (u := "_percent".data) (v := "_status".data)
    (by decide) (by decide) ("cpu_".data ++ natStr i) n
  simpa [cpuKey, procStatusKey, List.append_assoc] using h

lemma cpuKey_ne_procCpuKey (i : Nat) (n : Key) : cpuKey i ≠ procCpuKey n := by
  intro h
  have h' : ("cpu_".data ++ natStr i) ++ "_percent".data = (n ++ "_cpu".data) ++ "_percent".data := by
    have e : ("_cpu_percent".data : List Char) = "_cpu".data ++ "_percent".data := by decide
    simpa [cpuKey, procCpuKey, e, List.append_assoc] using h
  have h₂ : "cpu_".data ++ natStr i = n ++ "_cpu".data := List.append_cancel_right h'
  have hL := congrArg List.getLast? h₂
  rw [List.getLast?_append_of_ne_nil _ (natStr_ne_nil i),
      List.getLast?_append_of_ne_nil _ (by decide : ("_cpu".data : List Char) ≠ [])] at hL
  rcases natStr_getLast_digit i with ⟨d, hd, hlast⟩
  rw [hlast, (by decide : ("_cpu".data : List Char).getLast? = some 'u')] at hL
  have hu : digitChar d = 'u' := Option.some.inj hL
  have hdd := charDigit_digitChar d hd
  rw [hu] at hdd
  have : (117 : Nat) - 48 = d := by simpa [charDigit, Char.toNat] using hdd
  omega

lemma cpuKey_inj {i j : Nat} (h : cpuKey i = cpuKey j) : i = j := by
  have h' : "cpu_".data ++ (natStr i ++ "_percent".data)
      = "cpu_".data ++ (natStr j ++ "_percent".data) := by
    simpa [cpuKey, List.append_assoc] using h
  exact natStr_injective (List.append_cancel_right (List.append_cancel_left h'))

lemma mem_cpuKeysFrom {k : Key} :
    ∀ {n i : Nat}, k ∈ cpuKeysFrom i n → ∃ j, i ≤ j ∧ j < i + n ∧ k = cpuKey j := by
  intro n
  induction n with
  | zero => intro i h; simp [cpuKeysFrom] at h
  | succ m ih =>
    intro i h
    simp only [cpuKeysFrom, List.mem_cons] at h
    rcases h with rfl | h'
    · exact ⟨i, Nat.le_refl i, by omega, rfl⟩
    · rcases ih h' with ⟨j, h₁, h₂, h₃⟩
      exact ⟨j, by omega, by omega, h₃⟩

lemma cpuKeysFrom_nodup : ∀ (n i : Nat), (cpuKeysFrom i n).Nodup := by
  intro n
  induction n with
  | zero => intro i; simp [cpuKeysFrom]
  | succ m ih =>
    intro i
    simp only [cpuKeysFrom, List.nodup_cons]
    refine ⟨fun hmem => ?_, ih (i + 1)⟩
    rcases mem_cpuKeysFrom hmem with ⟨j, h₁, _, h₃⟩
    have := cpuKey_inj h₃
    omega

lemma mem_procKeys {k : Key} {names : List Key} (h : k ∈ procKeys names) :
    ∃ n ∈ names, k = procCpuKey n ∨ k = procMemKey n ∨ k = procStatusKey n := by
  simp only [procKeys, List.mem_flatMap, List.mem_cons, List.mem_singleton] at h
  rcases h with ⟨n, hn, hk⟩
  rcases hk with rfl | rfl | h'
  · exact ⟨n, hn, Or.inl rfl⟩
  · exact ⟨n, hn, Or.inr (Or.inl rfl)⟩
  · exact ⟨n, hn, Or.inr (Or.inr (by simpa using h'))⟩

lemma procTriple_disjoint {n₁ n₂ : Key} (hne : n₁ ≠ n₂)
    {k : Key} (h₁ : k = procCpuKey n₁ ∨ k = procMemKey n₁ ∨ k = procStatusKey n₁)
    (h₂ : k = procCpuKey n₂ ∨ k = procMemKey n₂ ∨ k = procStatusKey n₂) : False := by
  rcases h₁ with rfl | rfl | rfl <;> rcases h₂ with h | h | h
  · exact hne (List.append_cancel_right h)
  · exact procCpuKey_ne_procMemKey n₁ n₂ h
  · exact procCpuKey_ne_procStatusKey n₁ n₂ h
  · exact procCpuKey_ne_procMemKey n₂ n₁ h.symm
  · exact hne (List.append_cancel_right h)
  · exact procMemKey_ne_procStatusKey n₁ n₂ h
  · exact procCpuKey_ne_procStatusKey n₂ n₁ h.symm
  · exact procMemKey_ne_procStatusKey n₂ n₁ h.symm
  · exact hne (List.append_cancel_right h)

lemma procKeys_nodup {names : List Key} (h : names.Nodup) : (procKeys names).Nodup := by
  rw [procKeys, List.nodup_flatMap]
  constructor
  · intro n _
    simp only [List.nodup_cons, List.mem_cons, List.mem_singleton, List.not_mem_nil,
      List.nodup_nil]
    refine ⟨?_, ?_, ?_⟩
    · rintro (hc | hc | hc)
      · exact procCpuKey_ne_procMemKey n n hc
      · exact procCpuKey_ne_procStatusKey n n hc
      · simp at hc
    · rintro (hc | hc)
      · exact procMemKey_ne_procStatusKey n n hc
      · simp at hc
    · simp
  · refine h.imp ?_
    intro n₁ n₂ hne k hk₁ hk₂
    simp only [List.mem_cons, List.not_mem_nil, or_false] at hk₁ hk₂
    refine procTriple_disjoint hne (k := k) ?_ ?_
    · exact hk₁
    · exact hk₂

lemma baseKeys_nodup : baseKeys.Nodup := by decide

/-- Distinct configured process names give pairwise-distinct column keys, so
the generated schema never aliases two columns. -/
lemma canonKeys_nodup (cpuCount : Nat) {names : List Key} (h : names.Nodup) :
    (canonKeys cpuCount names).Nodup := by
  rw [canonKeys, List.append_assoc, List.nodup_append]
  refine ⟨baseKeys_nodup, ?_, ?_⟩
  · rw [List.nodup_append]
    refine ⟨cpuKeysFrom_nodup cpuCount 0, procKeys_nodup h, ?_⟩
    intro k hk hk'
    rcases mem_cpuKeysFrom hk with ⟨j, _, _, rfl⟩
    rcases mem_procKeys hk' with ⟨n, _, hc | hc | hc⟩
    · exact cpuKey_ne_procCpuKey j n hc
    · exact cpuKey_ne_procMemKey j n hc
    · exact cpuKey_ne_procStatusKey j n hc
  · intro k hk hk'
    rcases List.mem_append.mp hk' with hcpu | hproc
    · rcases mem_cpuKeysFrom hcpu with ⟨j, _, _, rfl⟩
      simp only [baseKeys, List.mem_cons, List.mem_singleton] at hk
      rcases hk with h' | h' | h' | h'
      · exact cpuKey_ne_ts j h'
      · exact cpuKey_ne_l1 j h'
      · exact cpuKey_ne_l5 j h'
      · exact cpuKey_ne_l15 j (by simpa using h')
    · rcases mem_procKeys hproc with ⟨n, _, rfl | rfl | rfl⟩
      · exact procCpuKey_ne_base n _ hk rfl
      · exact procMemKey_ne_base n _ hk rfl
      · exact procStatusKey_ne_base n _ hk rfl

/-! Behaviour of the dict operations. -/

lemma dictSet_fresh {s : Store} {k : Key} (h : k ∉ keys s) (v : List Val) :
    dictSet s k v = s ++ [(k, v)] := by
  induction s with
  | nil => rfl
  | cons a t ih =>
    rcases a with ⟨k₀, c⟩
    rw [keys_cons, List.mem_cons] at h
    push_neg at h
    simp only [dictSet, if_neg (show ¬ k₀ = k from fun e => h.1 e.symm), List.cons_append,
      List.cons.injEq, true_and]
    exact ih h.2

lemma dictAppend_keys {s s' : Store} {k : Key} {v : Val}
    (h : dictAppend s k v = .ok s') : keys s' = keys s := by
  induction s generalizing s' with
  | nil => simp [dictAppend] at h
  | cons a t ih =>
    rcases a with ⟨k₀, c⟩
    by_cases hk : k₀ = k
    · simp only [dictAppend, if_pos hk, Except.ok.injEq] at h
      subst h
      simp [hk]
    · simp only [dictAppend, if_neg hk] at h
      rcases hr : dictAppend t k v with e | r <;> rw [hr] at h
      · simp [Except.map] at h
      · simp only [Except.map, Except.ok.injEq] at h
        subst h
        rw [keys_cons, keys_cons, ih hr]

lemma dictAppend_ok {s : Store} {k : Key} (h : k ∈ keys s) (v : Val) :
    ∃ s', dictAppend s k v = .ok s' := by
  induction s with
  | nil => simp [keys] at h
  | cons a t ih =>
    rcases a with ⟨k₀, c⟩
    by_cases hk : k₀ = k
    · exact ⟨(k₀, c ++ [v]) :: t, by simp [dictAppend, hk]⟩
    · have h' : k ∈ keys t := by
        rw [keys_cons, List.mem_cons] at h
        rcases h with e | h'
        · exact absurd e.symm hk
        · exact h'
      rcases ih h' with ⟨r, hr⟩
      exact ⟨(k₀, c) :: r, by simp [dictAppend, hk, hr, Except.map]⟩

lemma colLen_dictAppend {s s' : Store} {k : Key} {v : Val}
    (h : dictAppend s k v = .ok s') (k' : Key) :
    colLen s' k' = colLen s k' + (if k' = k then 1 else 0) := by
  induction s generalizing s' with
  | nil => simp [dictAppend] at h
  | cons a t ih =>
    rcases a with ⟨k₀, c⟩
    by_cases hk : k₀ = k
    · subst hk
      simp [dictAppend] at h
      subst h
      by_cases hk' : k₀ = k'
      · subst hk'
        simp [colLen]
      · simp [colLen, hk', if_neg (fun e : k' = k₀ => hk' e.symm)]
    · simp only [dictAppend, if_neg hk] at h
      rcases hr : dictAppend t k v with e | r <;> rw [hr] at h
      · simp [Except.map] at h
      · simp only [Except.map, Except.ok.injEq] at h
        subst h
        by_cases hk' : k₀ = k'
        · subst hk'
          simp [colLen, hk]
        · simp only [colLen, if_neg hk']
          exact ih hr

lemma colLen_of_mem {s : Store} (hnd : (keys s).Nodup) {kv : Key × List Val} (h : kv ∈ s) :
    colLen s kv.1 = kv.2.length := by
  induction s with
  | nil => cases h
  | cons a t ih =>
    rcases List.mem_cons.mp h with rfl | h'
    · simp [colLen]
    · have hnd' : a.1 ∉ keys t ∧ (keys t).Nodup := by
        rw [keys_cons] at hnd
        exact List.nodup_cons.mp hnd
      have hne : a.1 ≠ kv.1 := by
        intro e
        apply hnd'.1
        rw [e]
        exact List.mem_map_of_mem Prod.fst h'
      rcases a with ⟨k₀, c⟩
      simp only [colLen, if_neg hne]
      exact ih hnd'.2 h'

/-! The column store built by `ProcessMonitor.__init__` (lines 66-83): the four
base columns, one empty column per detected core, then the three per-process
columns for each configured spec, all created by dict insertion in this order. -/

/-- The `self.data` dict right after `__init__`: every column exists and is empty. -/
def initData (cpuCount : Nat) (names : List Key) : Store :=
  names.foldl
    (fun d n =>
      dictSet (dictSet (dictSet d (procCpuKey n) []) (procMemKey n) []) (procStatusKey n) [])
    ((cpuKeysFrom 0 cpuCount).foldl (fun d k => dictSet d k [])
      [(tsKey, []), (l1Key, []), (l5Key, []), (l15Key, [])])

lemma foldl_dictSet_fresh :
    ∀ (ks : List Key) (s : Store), (∀ k ∈ ks, k ∉ keys s) → ks.Nodup →
      ks.foldl (fun d k => dictSet d k []) s = s ++ ks.map (fun k => (k, ([] : List Val))) := by
  intro ks
  induction ks with
  | nil => intro s _ _; simp
  | cons k t ih =>
    intro s hfresh hnd
    have hset : dictSet s k [] = s ++ [(k, [])] :=
      dictSet_fresh (hfresh k (List.mem_cons_self k t)) []
    have hkeys : keys (s ++ [(k, [])]) = keys s ++ [k] := by simp [keys]
    have hfresh' : ∀ k' ∈ t, k' ∉ keys (s ++ [(k, [])]) := by
      intro k' hk'
      rw [hkeys]
      simp only [List.mem_append, List.mem_singleton]
      push_neg
      refine ⟨hfresh k' (List.mem_cons_of_mem k hk'), ?_⟩
      intro e
      exact (List.nodup_cons.mp hnd).1 (e ▸ hk')
    calc (k :: t).foldl (fun d k => dictSet d k []) s
      = t.foldl (fun d k => dictSet d k []) (s ++ [(k, [])]) := by rw [List.foldl_cons, hset]
    _ = (s ++ [(k, [])]) ++ t.map (fun k => (k, ([] : List Val))) :=
        ih _ hfresh' (List.nodup_cons.mp hnd).2
    _ = s ++ (k :: t).map (fun k => (k, ([] : List Val))) := by simp

lemma proc_foldl_eq (names : List Key) (d : Store) :
    names.foldl
      (fun d n =>
        dictSet (dictSet (dictSet d (procCpuKey n) []) (procMemKey n) []) (procStatusKey n) []) d
    = (procKeys names).foldl (fun d k => dictSet d k []) d := by
  induction names generalizing d with
  | nil => simp [procKeys]
  | cons n t ih =>
    simp only [List.foldl_cons, procKeys, List.flatMap_cons, List.foldl_append]
    rw [ih]
    rfl

/-- After `__init__` the store is exactly the canonical schema with every
column empty (assuming the configured names are distinct, as the
one-logical-series-per-spec data model requires). -/
lemma keys_map_pair (l : List Key) : keys (l.map (fun k => (k, ([] : List Val)))) = l := by
  induction l with
  | nil => rfl
  | cons a t ih =>
    simp only [List.map_cons, keys_cons]
    rw [ih]

lemma initData_eq {cpuCount : Nat} {names : List Key} (h : names.Nodup) :
    initData cpuCount names = (canonKeys cpuCount names).map (fun k => (k, ([] : List Val))) := by
  have hnd : ((baseKeys ++ cpuKeysFrom 0 cpuCount) ++ procKeys names).Nodup := by
    have := canonKeys_nodup cpuCount h
    rwa [canonKeys] at this
  rw [List.nodup_append] at hnd
  obtain ⟨hbc, hp, hdisj⟩ := hnd
  rw [List.nodup_append] at hbc
  obtain ⟨_, hc, hdisj₂⟩ := hbc
  have hbase : ([(tsKey, []), (l1Key, []), (l5Key, []), (l15Key, [])] : Store)
      = baseKeys.map (fun k => (k, ([] : List Val))) := rfl
  unfold initData
  rw [proc_foldl_eq, hbase]
  have hkeysBase := keys_map_pair baseKeys
  rw [foldl_dictSet_fresh _ _ (by
    intro k hk
    rw [hkeysBase]
    exact fun hmem => hdisj₂ hmem hk) hc]
  rw [← List.map_append]
  have hkeysBC := keys_map_pair (baseKeys ++ cpuKeysFrom 0 cpuCount)
  rw [foldl_dictSet_fresh _ _ (by
    intro k hk
    rw [hkeysBC]
    exact fun hmem => hdisj hmem hk) hp]
  rw [← List.map_append]
  rfl

lemma keys_initData {cpuCount : Nat} {names : List Key} (h : names.Nodup) :
    keys (initData cpuCount names) = canonKeys cpuCount names := by
  rw [initData_eq h]
  exact keys_map_pair _

lemma initData_len {cpuCount : Nat} {names : List Key} (h : names.Nodup) :
    ∀ kv ∈ initData cpuCount names, kv.2.length = 0 := by
  rw [initData_eq h]
  intro kv hkv
  rcases List.mem_map.mp hkv with ⟨k, _, rfl⟩
  rfl

/-! The process aggregation of `ProcessMonitor._get_process_info`
(monitor.py lines 125-142). -/

/-- One process's prefetched `proc.info` record from
`psutil.process_iter(['name', 'cpu_percent', 'memory_info', 'status'])`:
`cpu_percent` may be `None` (first call), `memory_rss` is the RSS of
`memory_info` when that is present. -/
structure ProcInfo where
  name : List Char
  cpu_percent : Option ℚ
  memory_rss : Option ℚ
  status : List Char
deriving DecidableEq

/-- One entry of a `process_iter` enumeration: a readable record, or a process
whose access raises `NoSuchProcess`/`AccessDenied`/`ZombieProcess`. -/
inductive PEntry where
  | ok (info : ProcInfo)
  | err
deriving DecidableEq

/-- Whether `pat` is a prefix of `s` (helper for substring containment). -/
def startsWithL : List Char → List Char → Bool
  | [], _ => true
  | _ :: _, [] => false
  | p :: ps, c :: cs => p == c && startsWithL ps cs

/-- Python string containment `pat in s`: contiguous substring test
(the empty pattern matches everything). -/
def containsSub (pat : List Char) : List Char → Bool
  | [] => pat.isEmpty
  | c :: cs => startsWithL pat (c :: cs) || containsSub pat cs

/-- Last element of a list, or the default when the list is empty. -/
def lastD {α : Type} : List α → α → α
  | [], d => d
  | a :: l, _ => lastD l a

/-- One iteration of the loop in `_get_process_info` (lines 132-140): a
matching process adds `proc.info['cpu_percent'] or 0` and
`memory_info.rss if memory_info else 0` to the running sums and overwrites
the status; an entry that raises is skipped (`continue`). -/
def gpiStep (process_name : List Char) (acc : ℚ × ℚ × List Char) (e : PEntry) :
    ℚ × ℚ × List Char :=
  match e with
  | .err => acc
  | .ok info =>
    if containsSub process_name info.name then
      (acc.1 + info.cpu_percent.getD 0, acc.2.1 + info.memory_rss.getD 0, info.status)
    else acc

/-- `ProcessMonitor._get_process_info`: fold the enumeration starting from
`cpu_percent = 0`, `memory_rss = 0`, `status = "not_found"`. -/
def get_process_info (procs : List PEntry) (process_name : List Char) :
    ℚ × ℚ × List Char :=
  procs.foldl (gpiStep process_name) (0, 0, "not_found".data)

/-- The readable enumerated processes whose name contains the pattern, in
enumeration order. -/
def matchingInfos (procs : List PEntry) (pat : List Char) : List ProcInfo :=
  procs.filterMap (fun e =>
    match e with
    | .ok info => if containsSub pat info.name then some info else none
    | .err => none)

lemma gpi_fold (pat : List Char) :
    ∀ (procs : List PEntry) (c m : ℚ) (st : List Char),
      procs.foldl (gpiStep pat) (c, m, st) =
        (c + ((matchingInfos procs pat).map (fun i => i.cpu_percent.getD 0)).sum,
         m + ((matchingInfos procs pat).map (fun i => i.memory_rss.getD 0)).sum,
         lastD ((matchingInfos procs pat).map ProcInfo.status) st) := by
  intro procs
  induction procs with
  | nil => intro c m st; simp [matchingInfos, lastD]
  | cons e t ih =>
    intro c m st
    rcases e with info | _
    · by_cases hm : containsSub pat info.name
      · simp only [List.foldl_cons, gpiStep, if_pos hm, matchingInfos, List.filterMap_cons]
        rw [ih]
        simp only [matchingInfos] at ih ⊢
        simp [hm, add_assoc, lastD]
      · simp only [List.foldl_cons, gpiStep, if_neg hm, matchingInfos, List.filterMap_cons]
        rw [ih]
        simp only [matchingInfos] at ih ⊢
    · simp only [List.foldl_cons, gpiStep, matchingInfos, List.filterMap_cons]
      rw [ih]
      rfl

/-- Closed form of `_get_process_info`: sums over the matching processes and
the status of the last match (or the `not_found` sentinel). -/
lemma get_process_info_spec (procs : List PEntry) (pat : List Char) :
    get_process_info procs pat =
      (((matchingInfos procs pat).map (fun i => i.cpu_percent.getD 0)).sum,
       ((matchingInfos procs pat).map (fun i => i.memory_rss.getD 0)).sum,
       lastD ((matchingInfos procs pat).map ProcInfo.status) "not_found".data) := by
  rw [get_process_info, gpi_fold]
  simp

lemma lastD_map_getLast {α β : Type} (f : α → β) :
    ∀ (l : List α) (h : l ≠ []) (d : β), lastD (l.map f) d = f (l.getLast h) := by
  intro l
  induction l with
  | nil => intro h; cases h rfl
  | cons a t ih =>
    intro h d
    cases t with
    | nil => rfl
    | cons b u =>
      rw [List.map_cons, show lastD (f a :: (b :: u).map f) d = lastD ((b :: u).map f) (f a)
        from rfl]
      rw [ih (by simp) (f a)]
      rw [List.getLast_cons (show (b :: u : List α) ≠ [] by simp)]

/-! One sampling tick: `ProcessMonitor.collect_data` (monitor.py 144-170). -/

/-- The monitor state fixed at construction: the core count detected once by
`psutil.cpu_count()` and the configured process names, in order. -/
structure Monitor where
  cpu_count : Nat
  process_list : List (List Char)
deriving DecidableEq

instance {ε α : Type} [DecidableEq ε] [DecidableEq α] : DecidableEq (Except ε α) := fun a b =>
  match a, b with
  | .error e₁, .error e₂ =>
    if h : e₁ = e₂ then .isTrue (by rw [h]) else .isFalse (fun hc => h (Except.error.inj hc))
  | .error _, .ok _ => .isFalse (fun hc => Except.noConfusion hc)
  | .ok _, .error _ => .isFalse (fun hc => Except.noConfusion hc)
  | .ok a₁, .ok a₂ =>
    if h : a₁ = a₂ then .isTrue (by rw [h]) else .isFalse (fun hc => h (Except.ok.inj hc))

/-- The operating-system inputs consumed by one `collect_data` call: the
timestamp, the (fallible) `getloadavg` and `cpu_percent(percpu=True)` reads,
and one `process_iter` enumeration per `_get_process_info` call. -/
structure Tick where
  timestamp : Nat
  loadavg : Except PyErr (ℚ × ℚ × ℚ)
  percpu : Except PyErr (List ℚ)
  procTables : List (List PEntry)
deriving DecidableEq

/-- Result of a mutating step that can raise: the error also carries the
store as already mutated by the preceding statements, because a Python
exception does not roll back earlier appends. -/
abbrev CollectRes := Except (PyErr × Store) Store

/-- A single `self.data[k].append(v)` statement. -/
def appendE (s : Store) (k : Key) (v : Val) : CollectRes :=
  match dictAppend s k v with
  | .ok s' => .ok s'
  | .error e => .error (e, s)

/-- The per-core loop (lines 156-158): `enumerate(cpu_percent)` appends
`cpu_{i}_percent` for each returned percentage. -/
def appendCpus (s : Store) (i : Nat) : List ℚ → CollectRes
  | [] => .ok s
  | p :: rest =>
    match dictAppend s (cpuKey i) (.num p) with
    | .ok s' => appendCpus s' (i + 1) rest
    | .error e => .error (e, s)

/-- The per-process loop (lines 161-166): one `_get_process_info` call per
configured spec, then the three appends. -/
def appendProcs (tables : List (List PEntry)) (s : Store) (idx : Nat) :
    List (List Char) → CollectRes
  | [] => .ok s
  | n :: rest =>
    match dictAppend s (procCpuKey n) (.num (get_process_info (tables.getD idx []) n).1) with
    | .error e => .error (e, s)
    | .ok s₁ =>
      match dictAppend s₁ (procMemKey n) (.num (get_process_info (tables.getD idx []) n).2.1) with
      | .error e => .error (e, s₁)
      | .ok s₂ =>
        match dictAppend s₂ (procStatusKey n)
            (.str (get_process_info (tables.getD idx []) n).2.2) with
        | .error e => .error (e, s₂)
        | .ok s₃ => appendProcs tables s₃ (idx + 1) rest

/-- `ProcessMonitor.collect_data`: append the timestamp, the three load
averages, the per-core percentages and the per-process triples, in source
order.  `psutil.getloadavg()` and `psutil.cpu_percent(percpu=True)` are not
guarded by any `try`, so a failing system read propagates with the store
left partially appended.  The trailing `web_app.update_data(self.data)`
call (lines 168-170) hands over the live dict by reference and does not
change the store.  `collect_rest` covers lines 150-166, everything after the
timestamp append. -/
def collect_rest (m : Monitor) (t : Tick) (s₁ : Store) : CollectRes :=
  match t.loadavg with
  | .error e => .error (e, s₁)
  | .ok (la1, la5, la15) =>
    match appendE s₁ l1Key (.num la1) with
    | .error e => .error e
    | .ok s₂ =>
      match appendE s₂ l5Key (.num la5) with
      | .error e => .error e
      | .ok s₃ =>
        match appendE s₃ l15Key (.num la15) with
        | .error e => .error e
        | .ok s₄ =>
          match t.percpu with
          | .error e => .error (e, s₄)
          | .ok ps =>
            match appendCpus s₄ 0 ps with
            | .error e => .error e
            | .ok s₅ => appendProcs t.procTables s₅ 0 m.process_list

/-- The whole tick: the timestamp append of line 147 followed by the rest. -/
def collect_data (m : Monitor) (s : Store) (t : Tick) : CollectRes :=
  match appendE s tsKey (.time t.timestamp) with
  | .error e => .error e
  | .ok s₁ => collect_rest m t s₁

lemma appendE_ok {s : Store} {k : Key} (h : k ∈ keys s) (v : Val) :
    ∃ s', appendE s k v = .ok s' ∧ keys s' = keys s ∧
      ∀ k', colLen s' k' = colLen s k' + (if k' = k then 1 else 0) := by
  rcases dictAppend_ok h v with ⟨s', hs⟩
  exact ⟨s', by simp [appendE, hs], dictAppend_keys hs, colLen_dictAppend hs⟩

lemma appendCpus_spec :
    ∀ (ps : List ℚ) (s : Store) (i : Nat),
      (∀ k ∈ cpuKeysFrom i ps.length, k ∈ keys s) →
      ∃ s', appendCpus s i ps = .ok s' ∧ keys s' = keys s ∧
        ∀ k', colLen s' k' = colLen s k' + (cpuKeysFrom i ps.length).count k' := by
  intro ps
  induction ps with
  | nil =>
    intro s i _
    exact ⟨s, rfl, rfl, by simp [cpuKeysFrom]⟩
  | cons p rest ih =>
    intro s i hmem
    have hk : cpuKey i ∈ keys s := by
      apply hmem
      simp only [List.length_cons, cpuKeysFrom]
      exact List.mem_cons_self _ _
    rcases dictAppend_ok hk (.num p) with ⟨s₁, h₁⟩
    have hkeys₁ := dictAppend_keys h₁
    have hmem' : ∀ k ∈ cpuKeysFrom (i + 1) rest.length, k ∈ keys s₁ := by
      intro k hkk
      rw [hkeys₁]
      apply hmem
      simp only [List.length_cons, cpuKeysFrom]
      exact List.mem_cons_of_mem _ hkk
    rcases ih s₁ (i + 1) hmem' with ⟨s', hs', hkeys', hlen'⟩
    refine ⟨s', ?_, hkeys'.trans hkeys₁, ?_⟩
    · simp only [appendCpus, h₁]
      exact hs'
    · intro k'
      rw [hlen' k', colLen_dictAppend h₁ k']
      simp only [List.length_cons, cpuKeysFrom, List.count_cons, beq_iff_eq]
      by_cases hk' : k' = cpuKey i
      · subst hk'
        simp only [if_pos rfl]
        omega
      · simp only [if_neg hk', if_neg (fun e : cpuKey i = k' => hk' e.symm)]
        omega

lemma ite_eq_swap {α : Type} [DecidableEq α] (a b : α) :
    (if a = b then (1 : Nat) else 0) = (if b = a then 1 else 0) := by
  by_cases h : a = b
  · simp [h]
  · rw [if_neg h, if_neg (fun e : b = a => h e.symm)]

lemma appendProcs_spec (tables : List (List PEntry)) :
    ∀ (names : List (List Char)) (s : Store) (idx : Nat),
      (∀ k ∈ procKeys names, k ∈ keys s) →
      ∃ s', appendProcs tables s idx names = .ok s' ∧ keys s' = keys s ∧
        ∀ k', colLen s' k' = colLen s k' + (procKeys names).count k' := by
  intro names
  induction names with
  | nil =>
    intro s idx _
    exact ⟨s, rfl, rfl, by simp [procKeys]⟩
  | cons n rest ih =>
    intro s idx hmem
    have hmemTriple : ∀ k ∈ ([procCpuKey n, procMemKey n, procStatusKey n] : List Key),
        k ∈ keys s := by
      intro k hk
      apply hmem
      simp only [procKeys, List.flatMap_cons, List.mem_append]
      exact Or.inl hk
    rcases dictAppend_ok (hmemTriple (procCpuKey n) (by simp))
      (.num (get_process_info (tables.getD idx []) n).1) with ⟨s₁, h₁⟩
    have hkeys₁ := dictAppend_keys h₁
    rcases dictAppend_ok (k := procMemKey n)
      (by rw [hkeys₁]; exact hmemTriple (procMemKey n) (by simp))
      (.num (get_process_info (tables.getD idx []) n).2.1) with ⟨s₂, h₂⟩
    have hkeys₂ := dictAppend_keys h₂
    rcases dictAppend_ok (k := procStatusKey n)
      (by rw [hkeys₂, hkeys₁]; exact hmemTriple (procStatusKey n) (by simp))
      (.str (get_process_info (tables.getD idx []) n).2.2) with ⟨s₃, h₃⟩
    have hkeys₃ := dictAppend_keys h₃
    have hmem' : ∀ k ∈ procKeys rest, k ∈ keys s₃ := by
      intro k hkk
      rw [hkeys₃, hkeys₂, hkeys₁]
      apply hmem
      simp only [procKeys, List.flatMap_cons, List.mem_append]
      right
      exact hkk
    rcases ih s₃ (idx + 1) hmem' with ⟨s', hs', hkeys', hlen'⟩
    refine ⟨s', ?_, by rw [hkeys', hkeys₃, hkeys₂, hkeys₁], ?_⟩
    · simp only [appendProcs, h₁, h₂, h₃]
      exact hs'
    · intro k'
      rw [hlen' k', colLen_dictAppend h₃ k', colLen_dictAppend h₂ k', colLen_dictAppend h₁ k']
      simp only [procKeys, List.flatMap_cons, List.count_append, List.count_cons,
        List.count_nil, beq_iff_eq]
      rw [ite_eq_swap (procCpuKey n) k', ite_eq_swap (procMemKey n) k',
        ite_eq_swap (procStatusKey n) k']
      omega

lemma mem_canon_base {cc : Nat} {names : List Key} {b : Key} (hb : b ∈ baseKeys) :
    b ∈ canonKeys cc names := by
  rw [canonKeys]
  exact List.mem_append_left _ (List.mem_append_left _ hb)

lemma mem_canon_cpu {cc : Nat} {names : List Key} {k : Key} (hk : k ∈ cpuKeysFrom 0 cc) :
    k ∈ canonKeys cc names := by
  rw [canonKeys]
  exact List.mem_append_left _ (List.mem_append_right _ hk)

lemma mem_canon_proc {cc : Nat} {names : List Key} {k : Key} (hk : k ∈ procKeys names) :
    k ∈ canonKeys cc names := by
  rw [canonKeys]
  exact List.mem_append_right _ hk

/-- One fully successful tick, started on a store with the canonical schema:
`collect_data` returns normally, the schema is unchanged, and every column's
length grows by its multiplicity in the canonical key list. -/
lemma collect_data_ok (m : Monitor) (s : Store) (t : Tick)
    (hkeys : ∀ k ∈ canonKeys m.cpu_count m.process_list, k ∈ keys s)
    (hla : ∃ la, t.loadavg = Except.ok la)
    (hpc : ∃ ps, t.percpu = Except.ok ps ∧ ps.length = m.cpu_count) :
    ∃ s', collect_data m s t = .ok s' ∧ keys s' = keys s ∧
      ∀ k', colLen s' k' = colLen s k' + (canonKeys m.cpu_count m.process_list).count k' := by
  rcases hla with ⟨⟨la1, la5, la15⟩, hla⟩
  rcases hpc with ⟨ps, hps, hlen⟩
  obtain ⟨s₁, e₁, k₁, c₁⟩ :=
    appendE_ok (hkeys tsKey (mem_canon_base (by simp [baseKeys]))) (Val.time t.timestamp)
  obtain ⟨s₂, e₂, k₂, c₂⟩ := appendE_ok (s := s₁) (k := l1Key)
    (by rw [k₁]; exact hkeys _ (mem_canon_base (by simp [baseKeys]))) (Val.num la1)
  obtain ⟨s₃, e₃, k₃, c₃⟩ := appendE_ok (s := s₂) (k := l5Key)
    (by rw [k₂, k₁]; exact hkeys _ (mem_canon_base (by simp [baseKeys]))) (Val.num la5)
  obtain ⟨s₄, e₄, k₄, c₄⟩ := appendE_ok (s := s₃) (k := l15Key)
    (by rw [k₃, k₂, k₁]; exact hkeys _ (mem_canon_base (by simp [baseKeys]))) (Val.num la15)
  have hmemCpu : ∀ k ∈ cpuKeysFrom 0 ps.length, k ∈ keys s₄ := by
    intro k hk
    rw [k₄, k₃, k₂, k₁]
    refine hkeys k (mem_canon_cpu ?_)
    rwa [hlen] at hk
  obtain ⟨s₅, e₅, k₅, c₅⟩ := appendCpus_spec ps s₄ 0 hmemCpu
  have hmemProc : ∀ k ∈ procKeys m.process_list, k ∈ keys s₅ := by
    intro k hk
    rw [k₅, k₄, k₃, k₂, k₁]
    exact hkeys k (mem_canon_proc hk)
  obtain ⟨s₆, e₆, k₆, c₆⟩ := appendProcs_spec t.procTables m.process_list s₅ 0 hmemProc
  refine ⟨s₆, ?_, by rw [k₆, k₅, k₄, k₃, k₂, k₁], ?_⟩
  · simp only [collect_data, collect_rest, e₁, hla, e₂, e₃, e₄, hps, e₅]
    exact e₆
  · intro k'
    rw [c₆ k', c₅ k', c₄ k', c₃ k', c₂ k', c₁ k', hlen]
    simp only [canonKeys, List.count_append, baseKeys, List.count_cons, List.count_nil,
      beq_iff_eq]
    rw [ite_eq_swap tsKey k', ite_eq_swap l1Key k', ite_eq_swap l5Key k',
      ite_eq_swap l15Key k']
    omega

/-- The successive `collect_data()` calls of the `run()` loop, threading the
store; a raised exception stops the sequence and carries the partial store. -/
def runTicks (m : Monitor) : Store → List Tick → CollectRes
  | s, [] => .ok s
  | s, t :: ts =>
    match collect_data m s t with
    | .ok s' => runTicks m s' ts
    | .error e => .error e

/-- Well-formed system reads for one tick: `getloadavg` succeeds and
`cpu_percent(percpu=True)` returns exactly one entry per detected core. -/
def sysReadsOk (cc : Nat) (t : Tick) : Bool :=
  (match t.loadavg with
    | .ok _ => true
    | .error _ => false) &&
  (match t.percpu with
    | .ok ps => ps.length == cc
    | .error _ => false)

lemma sysReadsOk_elim {cc : Nat} {t : Tick} (h : sysReadsOk cc t = true) :
    (∃ la, t.loadavg = Except.ok la) ∧ (∃ ps, t.percpu = Except.ok ps ∧ ps.length = cc) := by
  rw [sysReadsOk, Bool.and_eq_true] at h
  constructor
  · rcases hv : t.loadavg with e | la
    · rw [hv] at h; simp at h
    · exact ⟨la, rfl⟩
  · rcases hv : t.percpu with e | ps
    · rw [hv] at h; simp at h
    · refine ⟨ps, rfl, ?_⟩
      have := h.2
      rw [hv] at this
      simpa using this

lemma runTicks_spec (m : Monitor) :
    ∀ (ticks : List Tick) (s : Store),
      keys s = canonKeys m.cpu_count m.process_list →
      (∀ t ∈ ticks, sysReadsOk m.cpu_count t = true) →
      ∃ s', runTicks m s ticks = .ok s' ∧ keys s' = keys s ∧
        ∀ k', colLen s' k' = colLen s k'
          + ticks.length * (canonKeys m.cpu_count m.process_list).count k' := by
  intro ticks
  induction ticks with
  | nil =>
    intro s _ _
    exact ⟨s, rfl, rfl, by simp⟩
  | cons t ts ih =>
    intro s hkeys hgood
    have hg := sysReadsOk_elim (hgood t (List.mem_cons_self t ts))
    obtain ⟨s', e', k', c'⟩ := collect_data_ok m s t
      (by intro k hk; rw [hkeys]; exact hk) hg.1 hg.2
    obtain ⟨s'', e'', k'', c''⟩ := ih s' (k'.trans hkeys)
      (fun u hu => hgood u (List.mem_cons_of_mem t hu))
    refine ⟨s'', ?_, k''.trans k', ?_⟩
    · simp only [runTicks, e']
      exact e''
    · intro q
      rw [c'' q, c' q, List.length_cons, Nat.succ_mul]
      omega

lemma colLen_map_pair (l : List Key) (k : Key) :
    colLen (l.map (fun k => (k, ([] : List Val)))) k = 0 := by
  induction l with
  | nil => rfl
  | cons a t ih =>
    simp only [List.map_cons, colLen]
    split
    · rfl
    · exact ih

lemma count_one_of_nodup {l : List Key} (hnd : l.Nodup) {a : Key} (h : a ∈ l) :
    l.count a = 1 := by
  induction l with
  | nil => cases h
  | cons b t ih =>
    have hnd' := List.nodup_cons.mp hnd
    rw [List.count_cons]
    rcases List.mem_cons.mp h with rfl | h'
    · rw [List.count_eq_zero.mpr hnd'.1]
      simp
    · have hne : ¬ (b == a) = true := by
        simp only [beq_iff_eq]
        intro e
        apply hnd'.1
        rw [e]
        exact h'
      simp only [if_neg hne, Nat.add_zero]
      exact ih hnd'.2 h'

/-- Running N successful ticks from the store built by `__init__` yields the
canonical schema with every column of length exactly N. -/
lemma run_from_init {cc : Nat} {names : List Key} (hnd : names.Nodup)
    (ticks : List Tick) (hticks : ∀ t ∈ ticks, sysReadsOk cc t = true) :
    ∃ s', runTicks ⟨cc, names⟩ (initData cc names) ticks = .ok s' ∧
      keys s' = canonKeys cc names ∧ ∀ kv ∈ s', kv.2.length = ticks.length := by
  obtain ⟨s', e', k', c'⟩ := runTicks_spec ⟨cc, names⟩ ticks (initData cc names)
    (keys_initData hnd) hticks
  refine ⟨s', e', k'.trans (keys_initData hnd), ?_⟩
  intro kv hkv
  have hKeyMem : kv.1 ∈ canonKeys cc names := by
    rw [← k'.trans (keys_initData hnd)]
    exact List.mem_map_of_mem Prod.fst hkv
  have hnodup : (keys s').Nodup := by
    rw [k'.trans (keys_initData hnd)]
    exact canonKeys_nodup cc hnd
  have hc := colLen_of_mem hnodup hkv
  rw [c' kv.1] at hc
  rw [initData_eq hnd, colLen_map_pair] at hc
  have hc' : 0 + ticks.length * (canonKeys cc names).count kv.1 = kv.2.length := hc
  have h1 : (canonKeys cc names).count kv.1 = 1 :=
    count_one_of_nodup (canonKeys_nodup cc hnd) hKeyMem
  rw [h1] at hc'
  omega

/-! The `run()` loop (monitor.py 309-348): collect, check the duration stop
condition, sleep; `KeyboardInterrupt` ends the loop; the `finally` block
saves and exports once, guarded by `if self.data["timestamp"]`. -/

/-- The store an outcome leaves behind: the new store on success, the
partially mutated store carried by the exception otherwise. -/
def resStore (r : CollectRes) : Store :=
  match r with
  | .ok s => s
  | .error e => e.2

lemma appendE_keys {s s' : Store} {k : Key} {v : Val} (h : appendE s k v = .ok s') :
    keys s' = keys s := by
  unfold appendE at h
  rcases hda : dictAppend s k v with e | r <;> rw [hda] at h
  · exact absurd h (by simp)
  · simp only [Except.ok.injEq] at h
    subst h
    exact dictAppend_keys hda

lemma colLen_le_dictAppend {s s' : Store} {k : Key} {v : Val}
    (h : dictAppend s k v = .ok s') (q : Key) : colLen s q ≤ colLen s' q := by
  rw [colLen_dictAppend h q]
  omega

lemma appendE_resStore_mono (s : Store) (k : Key) (v : Val) (q : Key) :
    colLen s q ≤ colLen (resStore (appendE s k v)) q := by
  unfold appendE
  rcases hda : dictAppend s k v with e | r
  · exact le_refl _
  · exact colLen_le_dictAppend hda q

lemma appendCpus_resStore_mono :
    ∀ (ps : List ℚ) (s : Store) (i : Nat) (q : Key),
      colLen s q ≤ colLen (resStore (appendCpus s i ps)) q := by
  intro ps
  induction ps with
  | nil => intro s i q; exact le_refl _
  | cons p rest ih =>
    intro s i q
    rcases hda : dictAppend s (cpuKey i) (Val.num p) with e | r
    · simp only [appendCpus, hda, resStore]
      exact le_refl _
    · have h₁ := colLen_le_dictAppend hda q
      have h₂ := ih r (i + 1) q
      simp only [appendCpus, hda]
      omega

lemma appendProcs_resStore_mono (tables : List (List PEntry)) :
    ∀ (names : List (List Char)) (s : Store) (idx : Nat) (q : Key),
      colLen s q ≤ colLen (resStore (appendProcs tables s idx names)) q := by
  intro names
  induction names with
  | nil => intro s idx q; exact le_refl _
  | cons n rest ih =>
    intro s idx q
    rcases h₁ : dictAppend s (procCpuKey n)
        (Val.num (get_process_info (tables.getD idx []) n).1) with e | s₁
    · simp only [appendProcs, h₁, resStore]
      exact le_refl _
    · have m₁ := colLen_le_dictAppend h₁ q
      rcases h₂ : dictAppend s₁ (procMemKey n)
          (Val.num (get_process_info (tables.getD idx []) n).2.1) with e | s₂
      · simp only [appendProcs, h₁, h₂, resStore]
        omega
      · have m₂ := colLen_le_dictAppend h₂ q
        rcases h₃ : dictAppend s₂ (procStatusKey n)
            (Val.str (get_process_info (tables.getD idx []) n).2.2) with e | s₃
        · simp only [appendProcs, h₁, h₂, h₃, resStore]
          omega
        · have m₃ := colLen_le_dictAppend h₃ q
          have m₄ := ih s₃ (idx + 1) q
          simp only [appendProcs, h₁, h₂, h₃]
          omega

lemma collect_rest_resStore_mono (m : Monitor) (t : Tick) (s₁ : Store) (q : Key) :
    colLen s₁ q ≤ colLen (resStore (collect_rest m t s₁)) q := by
  unfold collect_rest
  split
  · exact le_refl _
  · rename_i la1 la5 la15 hL
    split
    · rename_i e hA
      have h := appendE_resStore_mono s₁ l1Key (Val.num la1) q
      rw [hA] at h
      exact h
    · rename_i s₂ hA
      have m₁ : colLen s₁ q ≤ colLen s₂ q := by
        have h := appendE_resStore_mono s₁ l1Key (Val.num la1) q
        rw [hA] at h
        exact h
      split
      · rename_i e hB
        have h := appendE_resStore_mono s₂ l5Key (Val.num la5) q
        rw [hB] at h
        omega
      · rename_i s₃ hB
        have m₂ : colLen s₂ q ≤ colLen s₃ q := by
          have h := appendE_resStore_mono s₂ l5Key (Val.num la5) q
          rw [hB] at h
          exact h
        split
        · rename_i e hC
          have h := appendE_resStore_mono s₃ l15Key (Val.num la15) q
          rw [hC] at h
          omega
        · rename_i s₄ hC
          have m₃ : colLen s₃ q ≤ colLen s₄ q := by
            have h := appendE_resStore_mono s₃ l15Key (Val.num la15) q
            rw [hC] at h
            exact h
          split
          · simp only [resStore]
            omega
          · rename_i ps hP
            split
            · rename_i e hD
              have h := appendCpus_resStore_mono ps s₄ 0 q
              rw [hD] at h
              omega
            · rename_i s₅ hD
              have m₄ : colLen s₄ q ≤ colLen s₅ q := by
                have h := appendCpus_resStore_mono ps s₄ 0 q
                rw [hD] at h
                exact h
              have m₅ := appendProcs_resStore_mono t.procTables m.process_list s₅ 0 q
              omega

lemma collect_resStore_mono (m : Monitor) (s : Store) (t : Tick) (q : Key) :
    colLen s q ≤ colLen (resStore (collect_data m s t)) q := by
  unfold collect_data
  split
  · rename_i e hA
    have h := appendE_resStore_mono s tsKey (Val.time t.timestamp) q
    rw [hA] at h
    exact h
  · rename_i s₁ hA
    have m₁ : colLen s q ≤ colLen s₁ q := by
      have h := appendE_resStore_mono s tsKey (Val.time t.timestamp) q
      rw [hA] at h
      exact h
    have m₂ := collect_rest_resStore_mono m t s₁ q
    omega

/-- After any outcome of `collect_data` on a store that has a timestamp
column, the timestamp column is at least one longer: it is the very first
append of the tick. -/
lemma collect_ts {m : Monitor} {s : Store} {t : Tick} (h : tsKey ∈ keys s) :
    colLen s tsKey + 1 ≤ colLen (resStore (collect_data m s t)) tsKey := by
  obtain ⟨s₁, e₁, k₁, c₁⟩ := appendE_ok h (Val.time t.timestamp)
  have h₁ : colLen s₁ tsKey = colLen s tsKey + 1 := by
    rw [c₁]
    simp
  unfold collect_data
  rw [e₁]
  show colLen s tsKey + 1 ≤ colLen (resStore (collect_rest m t s₁)) tsKey
  have := collect_rest_resStore_mono m t s₁ tsKey
  omega

/-- How the `while True` loop stopped. -/
inductive ExitKind where
  | durationBreak
  | errored
  | exhausted
deriving DecidableEq

/-- The stop condition `if duration and (time.time() - start_time) >= duration`
(line 333): `None` and `0` are falsy, so only a non-zero duration can break
the loop. -/
def durCheck (duration : Option Int) (elapsed : ℚ) : Bool :=
  match duration with
  | none => false
  | some d => if d = 0 then false else decide ((d : ℚ) ≤ elapsed)

/-- The `while True` loop (lines 328-336): collect, then evaluate the stop
condition with this iteration's elapsed wall-clock time.  The trace lists the
tick inputs and elapsed time of each iteration the loop could start; if it is
exhausted without a break, the run was ended by `KeyboardInterrupt` during the
sleep (or before the next tick appended anything).  A non-`KeyboardInterrupt`
exception escaping `collect_data` also ends the loop, leaving the partially
appended store. -/
def loopRun (m : Monitor) (duration : Option Int) :
    Store → List (Tick × ℚ) → Store × ExitKind
  | s, [] => (s, .exhausted)
  | s, (t, e) :: rest =>
    match collect_data m s t with
    | .error err => (err.2, .errored)
    | .ok s' =>
      if durCheck duration e then (s', .durationBreak) else loopRun m duration s' rest

/-- `ProcessMonitor.run` (lines 326-348): the loop from the `__init__` store;
the `finally` block runs exactly once and performs the finalization
(`save_to_csv`, `generate_visualizations`, optional PDF export) if and only
if `self.data["timestamp"]` is non-empty.  Returns the final store and the
number of finalization executions. -/
def run (m : Monitor) (duration : Option Int) (steps : List (Tick × ℚ)) : Store × Nat :=
  let r := loopRun m duration (initData m.cpu_count m.process_list) steps
  (r.1, if colLen r.1 tsKey ≠ 0 then 1 else 0)

lemma loopRun_mono (m : Monitor) (duration : Option Int) :
    ∀ (steps : List (Tick × ℚ)) (s : Store) (q : Key),
      colLen s q ≤ colLen (loopRun m duration s steps).1 q := by
  intro steps
  induction steps with
  | nil => intro s q; exact le_refl _
  | cons step rest ih =>
    intro s q
    rcases step with ⟨t, e⟩
    rcases hc : collect_data m s t with err | s'
    · have := collect_resStore_mono m s t q
      rw [hc] at this
      simp only [loopRun, hc]
      exact this
    · have m₁ : colLen s q ≤ colLen s' q := by
        have := collect_resStore_mono m s t q
        rw [hc] at this
        exact this
      simp only [loopRun, hc]
      split
      · exact m₁
      · exact le_trans m₁ (ih s' q)

/-- Any run whose loop body started at least once has a non-empty timestamp
column at finalization time. -/
lemma loopRun_ts_pos {m : Monitor} (hnd : m.process_list.Nodup)
    (duration : Option Int) (step : Tick × ℚ) (rest : List (Tick × ℚ)) :
    1 ≤ colLen (loopRun m duration (initData m.cpu_count m.process_list)
      (step :: rest)).1 tsKey := by
  have hmem : tsKey ∈ keys (initData m.cpu_count m.process_list) := by
    rw [keys_initData hnd]
    exact mem_canon_base (by simp [baseKeys])
  rcases step with ⟨t, e⟩
  have hts := collect_ts (m := m) (t := t) hmem
  rcases hc : collect_data m (initData m.cpu_count m.process_list) t with err | s'
  · rw [hc] at hts
    simp only [loopRun, hc, resStore] at hts ⊢
    show 1 ≤ colLen err.2 tsKey
    omega
  · rw [hc] at hts
    simp only [loopRun, hc, resStore] at hts ⊢
    split
    · show 1 ≤ colLen s' tsKey
      omega
    · have := loopRun_mono m duration rest s' tsKey
      omega

lemma colLen_initData_zero {cc : Nat} {names : List Key} (hnd : names.Nodup) (k : Key) :
    colLen (initData cc names) k = 0 := by
  rw [initData_eq hnd]
  exact colLen_map_pair _ k

/-! Configuration loading: `_load_config` (monitor.py 91-108) and the reads
in `__init__` (lines 52-60). -/

/-- A parsed YAML value, the result of `yaml.safe_load` (an empty file parses
to `None`, modelled as `ynull`). -/
inductive YVal where
  | ynull
  | ybool (b : Bool)
  | ynum (q : ℚ)
  | ystr (s : List Char)
  | ylist (items : List YVal)
  | ydict (entries : List (List Char × YVal))

/-- The built-in default returned by `_load_config` when reading or parsing
the configuration file raises (lines 99-108). -/
def defaultConfig : YVal :=
  .ydict [("processes".data, .ylist [.ydict [("name".data, .ystr "python".data)]]),
          ("settings".data, .ydict
            [("interval".data, .ynum 10),
             ("output_dir".data, .ystr "./output".data),
             ("web_enabled".data, .ybool false),
             ("web_port".data, .ynum 5000),
             ("pdf_enabled".data, .ybool false)])]

/-- `ProcessMonitor._load_config`: any exception from opening or parsing the
file is caught and replaced by the default config; a file that parses
successfully is returned as-is, whatever shape its value has. -/
def load_config (raw : Except PyErr YVal) : YVal :=
  match raw with
  | .error _ => defaultConfig
  | .ok v => v

/-- Python `config[k]` on the parsed value: `KeyError` when the key is missing
from a dict, `TypeError` when the value is not subscriptable by a string
(e.g. the file was empty and parsed to `None`). -/
def yIndex (v : YVal) (k : List Char) : Except PyErr YVal :=
  match v with
  | .ydict entries =>
    match entries.lookup k with
    | some w => .ok w
    | none => .error .keyError
  | _ => .error .typeError

/-- Python `settings.get(k, d)`: the value or the default for a dict,
`AttributeError` when `settings` is not a dict. -/
def yGet (v : YVal) (k : List Char) (d : YVal) : Except PyErr YVal :=
  match v with
  | .ydict entries =>
    match entries.lookup k with
    | some w => .ok w
    | none => .ok d
  | _ => .error .attributeError

/-- The configuration-derived fields of `ProcessMonitor` (lines 53-60). -/
structure MonitorCfg where
  process_list : List YVal
  interval : YVal
  output_dir : YVal
  web_enabled : YVal
  web_port : YVal
  pdf_enabled : YVal
  direct_pdf : YVal

/-- The configuration handling of `__init__` (lines 52-60 plus the
per-process column loop at line 79 that iterates `self.process_list`):
`config["processes"]`, `config["settings"]`, the `settings.get` reads with
their defaults, and finally the requirement that `processes` is a list (a
non-list value fails in the `for proc in self.process_list` loop, modelled
as the `TypeError` Python raises for a non-iterable; iterating other
iterable shapes is not modelled).  This is everything of construction that
configuration errors can reach. -/
def monitorInit (raw : Except PyErr YVal) : Except PyErr MonitorCfg :=
  match yIndex (load_config raw) "processes".data with
  | .error e => .error e
  | .ok procs =>
    match yIndex (load_config raw) "settings".data with
    | .error e => .error e
    | .ok settings =>
      match yGet settings "interval".data (.ynum 10) with
      | .error e => .error e
      | .ok interval =>
        match yGet settings "output_dir".data (.ystr "./output".data) with
        | .error e => .error e
        | .ok output_dir =>
          match yGet settings "web_enabled".data (.ybool false) with
          | .error e => .error e
          | .ok web_enabled =>
            match yGet settings "web_port".data (.ynum 5000) with
            | .error e => .error e
            | .ok web_port =>
              match yGet settings "pdf_enabled".data (.ybool false) with
              | .error e => .error e
              | .ok pdf_enabled =>
                match yGet settings "direct_pdf".data (.ybool true) with
                | .error e => .error e
                | .ok direct_pdf =>
                  match procs with
                  | .ylist items =>
                    .ok ⟨items, interval, output_dir, web_enabled, web_port,
                         pdf_enabled, direct_pdf⟩
                  | _ => .error .typeError

/-! Persistence: `save_to_csv` (lines 172-178) and the `pd.read_csv` reload
at the start of `generate_visualizations` (lines 180-185). -/

/-- Row count of `pd.DataFrame(self.data)`: the common column length (taken
from the first column; `save_to_csv` is only reached with lockstep columns). -/
def numRows (s : Store) : Nat :=
  match s with
  | [] => 0
  | kv :: _ => kv.2.length

/-- `save_to_csv`: `pd.DataFrame(self.data)` keeps dict insertion order as
the column order and `to_csv` emits the header row plus one row per tick.
Cell serialization to text is abstracted: cells keep their values. -/
def save_to_csv (s : Store) : List Key × List (List Val) :=
  (keys s, (List.range (numRows s)).map (fun r => s.map (fun kv => kv.2.getD r (.str []))))

/-- One reloaded column per header entry, rebuilt positionally from the rows
(`pd.read_csv` semantics for a header of distinct names). -/
def readCols (rows : List (List Val)) : Nat → List Key → Store
  | _, [] => []
  | i, k :: ks => (k, rows.map (fun row => row.getD i (.str []))) :: readCols rows (i + 1) ks

/-- The `pd.read_csv(csv_path)` reload. -/
def read_csv (csv : List Key × List (List Val)) : Store :=
  readCols csv.2 0 csv.1

lemma keys_readCols (rows : List (List Val)) :
    ∀ (hdr : List Key) (i : Nat), keys (readCols rows i hdr) = hdr := by
  intro hdr
  induction hdr with
  | nil => intro i; rfl
  | cons k ks ih =>
    intro i
    simp only [readCols, keys_cons]
    rw [ih]

lemma len_readCols (rows : List (List Val)) :
    ∀ (hdr : List Key) (i : Nat), ∀ kv ∈ readCols rows i hdr, kv.2.length = rows.length := by
  intro hdr
  induction hdr with
  | nil => intro i kv hkv; cases hkv
  | cons k ks ih =>
    intro i kv hkv
    rcases List.mem_cons.mp hkv with rfl | h'
    · simp
    · exact ih (i + 1) kv h'

/-! The live hand-off to the web application (monitor.py 168-170 and
web_app.py 95-102). -/

/-- `MonitorWebApp.update_data`: `self.monitor_data = data` stores the
argument object itself.  `collect_data` passes `self.data`, the live dict,
so the stored view aliases the monitor's store rather than copying it:
whatever the store looks like when the web thread reads, that is what it
serves. -/
def update_data (monitor_data : Store) (data : Store) : Store := data

/-- The store as it stands right after the `self.data["timestamp"].append`
statement (line 147) of a `collect_data` call, before any other column is
appended: an observable mid-append state of the shared dict. -/
def afterTimestampAppend (s : Store) (t : Tick) : Store :=
  match dictAppend s tsKey (.time t.timestamp) with
  | .ok s' => s'
  | .error _ => s

/-- Whether all columns of a store have equal length. -/
def equalLens (s : Store) : Bool :=
  match s with
  | [] => true
  | kv :: rest => rest.all (fun kv' => kv'.2.length == kv.2.length)

lemma equalLens_of_const {s : Store} {n : Nat} (h : ∀ kv ∈ s, kv.2.length = n) :
    equalLens s = true := by
  rcases s with _ | ⟨kv, rest⟩
  · rfl
  · simp only [equalLens, List.all_eq_true]
    intro kv' hkv'
    rw [beq_iff_eq, h kv' (List.mem_cons_of_mem kv hkv'),
      h kv (List.mem_cons_self kv rest)]

/-- Whether an `Except` result is a normal return. -/
def isOkE {ε α : Type} (r : Except ε α) : Bool :=
  match r with
  | .ok _ => true
  | .error _ => false

/-- Whether an enumerated process is readable and its name contains the
pattern (a raising entry exposes no name). -/
def entryMatches (pat : List Char) (e : PEntry) : Bool :=
  match e with
  | .ok info => containsSub pat info.name
  | .err => false

lemma matchingInfos_eq_nil {procs : List PEntry} {pat : List Char}
    (h : ∀ e ∈ procs, entryMatches pat e = false) : matchingInfos procs pat = [] := by
  induction procs with
  | nil => rfl
  | cons e t ih =>
    have he := h e (List.mem_cons_self e t)
    rcases e with info | _
    · simp only [entryMatches] at he
      simp only [matchingInfos, List.filterMap_cons, he]
      exact ih (fun e' he' => h e' (List.mem_cons_of_mem _ he'))
    · simp only [matchingInfos, List.filterMap_cons]
      exact ih (fun e' he' => h e' (List.mem_cons_of_mem _ he'))

/-! Concrete fixtures used by the witnesses and counterexamples. -/

/-- A configured process name. -/
def wName : Key := "a".data

/-- A second configured process name. -/
def wName2 : Key := "b".data

/-- A fully successful tick for a machine with zero detected cores: one
matching readable process. -/
def wTickOk : Tick :=
  ⟨0, .ok (1, 1, 1), .ok [], [[PEntry.ok ⟨"ab".data, some 10, some 5, "running".data⟩]]⟩

/-- A fully successful tick for a machine with two detected cores. -/
def wTick2 : Tick := ⟨0, .ok (1, 1, 1), .ok [3, 4], []⟩

/-- A tick whose `getloadavg` read raises `OSError`. -/
def c4tick : Tick := ⟨0, .error .osError, .ok [], []⟩

/-- A tick whose system reads succeed but whose every per-process read
raises. -/
def c4errTick : Tick := ⟨0, .ok (1, 1, 1), .ok [], [[PEntry.err]]⟩

/-- An enumeration with one readable non-matching process and one raising
entry. -/
def c2procs : List PEntry := [.ok ⟨"bash".data, some 1, some 2, "running".data⟩, .err]

/-- An enumeration with two matching processes (CPU 10 and 5), a raising
entry, and a non-matching process. -/
def c3procs : List PEntry :=
  [.ok ⟨"worker-1".data, some 10, some 4, "running".data⟩,
   .err,
   .ok ⟨"worker-2".data, some 5, some 6, "sleeping".data⟩,
   .ok ⟨"other".data, some 100, some 100, "running".data⟩]

/-- The store after one completed tick of the zero-core, one-spec monitor:
the object `update_data` handed to the web application at that tick. -/
def c9store : Store := resStore (runTicks ⟨0, [wName]⟩ (initData 0 [wName]) [wTickOk])

/-! The claims. -/

/-- C1: for every valid configuration (distinct configured process names) and
every run of N completed ticks whose system reads succeed and report the
construction-time core count, every column of the store — timestamp, the
three load averages, one per detected core, and three per configured process
spec — has length exactly N, and all columns have equal length.  Because the
theorem quantifies over the tick list, instantiating it at each prefix gives
the lockstep invariant at every observable boundary outside an in-progress
append. -/
theorem c1_fixed_schema_lockstep (cc : Nat) (names : List Key) (hnd : names.Nodup)
    (ticks : List Tick) (hticks : ∀ t ∈ ticks, sysReadsOk cc t = true) :
    ∃ s', runTicks ⟨cc, names⟩ (initData cc names) ticks = .ok s' ∧
      keys s' = canonKeys cc names ∧
      (∀ kv ∈ s', kv.2.length = ticks.length) ∧
      equalLens s' = true := by
  obtain ⟨s', e', k', l'⟩ := run_from_init hnd ticks hticks
  exact ⟨s', e', k', l', equalLens_of_const l'⟩

/-- C1 witness: two cores, two specs, two ticks. -/
theorem c1_fixed_schema_lockstep_witness :
    ((([wName, wName2] : List Key).Nodup) ∧
      (∀ t ∈ [wTick2, wTick2], sysReadsOk 2 t = true)) ∧
    (∃ s', runTicks ⟨2, [wName, wName2]⟩ (initData 2 [wName, wName2]) [wTick2, wTick2]
        = .ok s' ∧
      keys s' = canonKeys 2 [wName, wName2] ∧
      (∀ kv ∈ s', kv.2.length = ([wTick2, wTick2] : List Tick).length) ∧
      equalLens s' = true) :=
  ⟨⟨by decide, by decide⟩,
    c1_fixed_schema_lockstep 2 [wName, wName2] (by decide) [wTick2, wTick2] (by decide)⟩

/-- C2: if zero currently-enumerated processes have a name containing the
pattern as a substring, `_get_process_info` returns exactly
`(cpu=0, memory=0, status="not_found")`. -/
theorem c2_no_match_zero_aggregate (procs : List PEntry) (pat : List Char)
    (h : ∀ e ∈ procs, entryMatches pat e = false) :
    get_process_info procs pat = (0, 0, "not_found".data) := by
  rw [get_process_info_spec, matchingInfos_eq_nil h]
  rfl

/-- C2 witness: the pattern "python" matches nothing in `c2procs`. -/
theorem c2_no_match_zero_aggregate_witness :
    (∀ e ∈ c2procs, entryMatches "python".data e = false) ∧
    get_process_info c2procs "python".data = (0, 0, "not_found".data) :=
  ⟨by decide, c2_no_match_zero_aggregate c2procs "python".data (by decide)⟩

/-- C3: when the pattern matches at least one enumerated readable process,
`_get_process_info` returns the sum of the matching processes' CPU
percentages (a `None` reading counts as 0, per the `or 0` on line 136), the
sum of their resident-set sizes (0 when `memory_info` is absent, line 137),
and the status of the last matching process in enumeration order. -/
theorem c3_matching_aggregate_sums (procs : List PEntry) (pat : List Char)
    (h : matchingInfos procs pat ≠ []) :
    get_process_info procs pat =
      (((matchingInfos procs pat).map (fun i => i.cpu_percent.getD 0)).sum,
       ((matchingInfos procs pat).map (fun i => i.memory_rss.getD 0)).sum,
       ((matchingInfos procs pat).getLast h).status) := by
  rw [get_process_info_spec, lastD_map_getLast ProcInfo.status _ h]

/-- C3 witness: "worker" matches the CPU-10 and CPU-5 processes; the result
is the sum over those two matches with the status of the later one. -/
theorem c3_matching_aggregate_sums_witness :
    (matchingInfos c3procs "worker".data ≠ []) ∧
    get_process_info c3procs "worker".data =
      (((matchingInfos c3procs "worker".data).map (fun i => i.cpu_percent.getD 0)).sum,
       ((matchingInfos c3procs "worker".data).map (fun i => i.memory_rss.getD 0)).sum,
       ((matchingInfos c3procs "worker".data).getLast (by decide)).status) :=
  ⟨by decide, c3_matching_aggregate_sums c3procs "worker".data (by decide)⟩

/-- C4 counterexample: with the load-average read raising an `OSError`,
`collect_data` propagates the exception to its caller — `psutil.getloadavg()`
on line 150 is not guarded — instead of degrading the metric, so the claim
that a tick never raises is false on this code (and the timestamp append has
already happened, leaving the columns mismatched). -/
theorem c4_system_read_failure_raises :
    isOkE (collect_data ⟨0, [wName]⟩ (initData 0 [wName]) c4tick) = false := by decide

/-- C4 amended: when the two system-level reads succeed (the per-core list
matching the construction-time core count), a tick never raises: every
per-process read failure — the tables here are arbitrary, including
all-raising enumerations — only degrades that spec's fields towards the
zero/"not_found" values of `_get_process_info`, and exactly one value is
appended to every column.  A failing system-level read instead propagates
(see the counterexample). -/
theorem c4_tick_completes_when_system_reads_ok (m : Monitor) (s : Store) (t : Tick)
    (hnd : m.process_list.Nodup)
    (hkeys : keys s = canonKeys m.cpu_count m.process_list)
    (hsys : sysReadsOk m.cpu_count t = true) :
    ∃ s', collect_data m s t = .ok s' ∧ keys s' = keys s ∧
      ∀ kv ∈ s', kv.2.length = colLen s kv.1 + 1 := by
  have hg := sysReadsOk_elim hsys
  obtain ⟨s', e', k', c'⟩ := collect_data_ok m s t
    (by intro k hk; rw [hkeys]; exact hk) hg.1 hg.2
  refine ⟨s', e', k', ?_⟩
  intro kv hkv
  have hmemk : kv.1 ∈ canonKeys m.cpu_count m.process_list := by
    rw [← hkeys, ← k']
    exact List.mem_map_of_mem Prod.fst hkv
  have hnodup : (keys s').Nodup := by
    rw [k', hkeys]
    exact canonKeys_nodup _ hnd
  have hlen := colLen_of_mem hnodup hkv
  rw [c' kv.1, count_one_of_nodup (canonKeys_nodup _ hnd) hmemk] at hlen
  omega

/-- C4 amended witness: zero cores, one spec, every per-process read raising. -/
theorem c4_tick_completes_when_system_reads_ok_witness :
    (((⟨0, [wName]⟩ : Monitor).process_list.Nodup ∧
      keys (initData 0 [wName]) = canonKeys 0 [wName] ∧
      sysReadsOk 0 c4errTick = true)) ∧
    (∃ s', collect_data ⟨0, [wName]⟩ (initData 0 [wName]) c4errTick = .ok s' ∧
      keys s' = keys (initData 0 [wName]) ∧
      ∀ kv ∈ s', kv.2.length = colLen (initData 0 [wName]) kv.1 + 1) :=
  ⟨⟨by decide, by decide, by decide⟩,
    c4_tick_completes_when_system_reads_ok ⟨0, [wName]⟩ (initData 0 [wName]) c4errTick
      (by decide) (by decide) (by decide)⟩

/-- C5: the finalization in `run`'s `finally` block executes exactly once in
every run that collected at least one sample — whether the loop ended by
duration expiry, by cancellation during a wait, or by an exception escaping
a tick — and it is never invoked when zero samples were collected (an
interrupt before the first tick appends anything). -/
theorem c5_finalize_once_iff_sampled (m : Monitor) (hnd : m.process_list.Nodup)
    (duration : Option Int) (steps : List (Tick × ℚ)) :
    (run m duration steps).2 = if steps.isEmpty then 0 else 1 := by
  rcases steps with _ | ⟨step, rest⟩
  · show (if colLen (initData m.cpu_count m.process_list) tsKey ≠ 0 then 1 else 0) = 0
    rw [colLen_initData_zero hnd]
    simp
  · show (if colLen (loopRun m duration (initData m.cpu_count m.process_list)
        (step :: rest)).1 tsKey ≠ 0 then 1 else 0) = 1
    have h1 := loopRun_ts_pos hnd duration step rest
    rw [if_pos (by omega)]

/-- C5 witness: one collected sample, run ended by cancellation. -/
theorem c5_finalize_once_iff_sampled_witness :
    ((⟨0, [wName]⟩ : Monitor).process_list.Nodup) ∧
    (run ⟨0, [wName]⟩ none [(wTickOk, 0)]).2 =
      if ([(wTickOk, (0 : ℚ))] : List (Tick × ℚ)).isEmpty then 0 else 1 :=
  ⟨by decide, c5_finalize_once_iff_sampled ⟨0, [wName]⟩ (by decide) none [(wTickOk, 0)]⟩

/-- C6 counterexample: a configuration file that opens and parses without an
exception but yields `None` (an empty YAML file — an invalid configuration
file) does not fall back to the default: `_load_config` returns `None`
unchanged and `self.config["processes"]` raises `TypeError`, so construction
is fatal here and configuration loading is not "never fatal". -/
theorem c6_null_config_is_fatal :
    monitorInit (Except.ok YVal.ynull) = Except.error PyErr.typeError := rfl

/-- C6 amended: for every failure to open or parse the configuration file,
construction recovers locally by falling back to the built-in default: one
process spec named "python", interval 10, output directory "./output", web
interface disabled with port 5000, PDF generation disabled, and direct PDF
defaulted to true.  Only read/parse exceptions are recovered; a successfully
parsed value of the wrong shape still aborts construction (see the
counterexample). -/
theorem c6_open_parse_failure_falls_back (e : PyErr) :
    monitorInit (Except.error e) =
      Except.ok ⟨[YVal.ydict [("name".data, YVal.ystr "python".data)]], YVal.ynum 10,
        YVal.ystr "./output".data, YVal.ybool false, YVal.ynum 5000, YVal.ybool false,
        YVal.ybool true⟩ := rfl

/-- C6 amended witness: an `OSError` while opening the file falls back to the
default configuration. -/
theorem c6_open_parse_failure_falls_back_witness :
    monitorInit (Except.error PyErr.osError) =
      Except.ok ⟨[YVal.ydict [("name".data, YVal.ystr "python".data)]], YVal.ynum 10,
        YVal.ystr "./output".data, YVal.ybool false, YVal.ynum 5000, YVal.ybool false,
        YVal.ybool true⟩ :=
  c6_open_parse_failure_falls_back PyErr.osError

/-- C7: for every valid configuration and every successful run, the persisted
table produced by `save_to_csv` has its columns in exactly the fixed order
`timestamp, system_load_1, system_load_5, system_load_15`, then
`cpu_0_percent .. cpu_{N-1}_percent` for the N detected cores, then the
triple `{name}_cpu_percent, {name}_memory_rss, {name}_status` for each
configured process spec in configured order. -/
theorem c7_csv_column_order (cc : Nat) (names : List Key) (hnd : names.Nodup)
    (ticks : List Tick) (hticks : ∀ t ∈ ticks, sysReadsOk cc t = true) :
    ∃ s', runTicks ⟨cc, names⟩ (initData cc names) ticks = .ok s' ∧
      (save_to_csv s').1 =
        [tsKey, l1Key, l5Key, l15Key] ++ cpuKeysFrom 0 cc
          ++ names.flatMap (fun n => [procCpuKey n, procMemKey n, procStatusKey n]) := by
  obtain ⟨s', e', k', _⟩ := run_from_init hnd ticks hticks
  exact ⟨s', e', k'⟩

/-- C7 witness: two cores and two specs, one tick. -/
theorem c7_csv_column_order_witness :
    ((([wName, wName2] : List Key).Nodup) ∧
      (∀ t ∈ [wTick2], sysReadsOk 2 t = true)) ∧
    (∃ s', runTicks ⟨2, [wName, wName2]⟩ (initData 2 [wName, wName2]) [wTick2] = .ok s' ∧
      (save_to_csv s').1 =
        [tsKey, l1Key, l5Key, l15Key] ++ cpuKeysFrom 0 2
          ++ ([wName, wName2] : List Key).flatMap
              (fun n => [procCpuKey n, procMemKey n, procStatusKey n])) :=
  ⟨⟨by decide, by decide⟩,
    c7_csv_column_order 2 [wName, wName2] (by decide) [wTick2] (by decide)⟩

/-- C8: persisting a snapshot whose columns are in lockstep to the tabular
format and reloading it reconstructs the same set of columns, in the same
order, with the same number of values per column (the header must have
distinct names, which valid configurations guarantee — `read_csv` mangles
duplicate header names). -/
theorem c8_csv_round_trip (s : Store) (n : Nat) (hnd : (keys s).Nodup)
    (hlen : ∀ kv ∈ s, kv.2.length = n) :
    keys (read_csv (save_to_csv s)) = keys s ∧
      ∀ kv ∈ read_csv (save_to_csv s), kv.2.length = n := by
  constructor
  · rw [read_csv]
    exact keys_readCols _ _ 0
  · intro kv hkv
    have hl := len_readCols (save_to_csv s).2 (save_to_csv s).1 0 kv hkv
    rw [hl]
    show ((List.range (numRows s)).map _).length = n
    rw [List.length_map, List.length_range]
    rcases s with _ | ⟨kv₀, rest⟩
    · simp [read_csv, save_to_csv, readCols, keys, numRows] at hkv
    · exact hlen kv₀ (List.mem_cons_self _ _)

/-- C8 witness: a two-column snapshot with one row. -/
theorem c8_csv_round_trip_witness :
    ((keys [(tsKey, [Val.time 0]), (wName, [Val.num 1])]).Nodup ∧
      (∀ kv ∈ ([(tsKey, [Val.time 0]), (wName, [Val.num 1])] : Store), kv.2.length = 1)) ∧
    (keys (read_csv (save_to_csv [(tsKey, [Val.time 0]), (wName, [Val.num 1])]))
        = keys [(tsKey, [Val.time 0]), (wName, [Val.num 1])] ∧
      ∀ kv ∈ read_csv (save_to_csv [(tsKey, [Val.time 0]), (wName, [Val.num 1])]),
        kv.2.length = 1) :=
  ⟨⟨by decide, by decide⟩,
    c8_csv_round_trip [(tsKey, [Val.time 0]), (wName, [Val.num 1])] 1 (by decide) (by decide)⟩

/-- C9 counterexample: the object handed to the broadcaster is not an
immutable snapshot.  `update_data` (web_app.py line 102) stores the live
dict itself — `update_data old live = live` — so inspecting the broadcast
view during the next tick's append, right after the timestamp append of
line 147, observes mismatched column lengths: a partially-appended tick is
visible through the hand-off, refuting atomicity. -/
theorem c9_live_reference_mid_append_mismatch :
    equalLens (afterTimestampAppend (update_data [] c9store) wTickOk) = false := by decide

/-- C9 amended: the broadcaster's aliased view does show equal column lengths
whenever it is read outside an in-progress append — at completed-tick
boundaries — because the live store then satisfies the lockstep invariant;
only mid-append reads (see the counterexample) violate it. -/
theorem c9_view_equal_lengths_at_boundaries (cc : Nat) (names : List Key)
    (hnd : names.Nodup) (ticks : List Tick)
    (hticks : ∀ t ∈ ticks, sysReadsOk cc t = true) (w : Store) :
    ∃ s', runTicks ⟨cc, names⟩ (initData cc names) ticks = .ok s' ∧
      equalLens (update_data w s') = true := by
  obtain ⟨s', e', _, l'⟩ := run_from_init hnd ticks hticks
  exact ⟨s', e', equalLens_of_const l'⟩

/-- C9 amended witness: one tick, then the view is consistent at the
boundary. -/
theorem c9_view_equal_lengths_at_boundaries_witness :
    ((([wName] : List Key).Nodup) ∧ (∀ t ∈ [wTickOk], sysReadsOk 0 t = true)) ∧
    (∃ s', runTicks ⟨0, [wName]⟩ (initData 0 [wName]) [wTickOk] = .ok s' ∧
      equalLens (update_data [] s') = true) :=
  ⟨⟨by decide, by decide⟩,
    c9_view_equal_lengths_at_boundaries 0 [wName] (by decide) [wTickOk] (by decide) []⟩

/-- C10: for every duration argument — including 0 (falsy, never breaks),
negative values, and `None` — the loop body collects and appends a sample
before the duration stop condition is first evaluated, so a run that
terminates by duration expiry always finalizes over a non-empty dataset and
runs its finalization exactly once. -/
theorem c10_duration_break_after_first_sample (m : Monitor) (hnd : m.process_list.Nodup)
    (duration : Option Int) (steps : List (Tick × ℚ))
    (hbreak : (loopRun m duration (initData m.cpu_count m.process_list) steps).2
      = ExitKind.durationBreak) :
    1 ≤ colLen (loopRun m duration (initData m.cpu_count m.process_list) steps).1 tsKey ∧
      (run m duration steps).2 = 1 := by
  rcases steps with _ | ⟨step, rest⟩
  · exact absurd hbreak (by simp [loopRun])
  · have h1 := loopRun_ts_pos hnd duration step rest
    refine ⟨h1, ?_⟩
    show (if colLen (loopRun m duration (initData m.cpu_count m.process_list)
        (step :: rest)).1 tsKey ≠ 0 then 1 else 0) = 1
    rw [if_pos (by omega)]

/-- C10 witness: a negative duration is truthy, so the first tick already
satisfies the stop condition; the run still holds that one sample. -/
theorem c10_duration_break_after_first_sample_witness :
    (((⟨0, [wName]⟩ : Monitor).process_list.Nodup ∧
      (loopRun ⟨0, [wName]⟩ (some (-5)) (initData 0 [wName]) [(wTickOk, 0)]).2
        = ExitKind.durationBreak)) ∧
    (1 ≤ colLen (loopRun ⟨0, [wName]⟩ (some (-5)) (initData 0 [wName])
        [(wTickOk, 0)]).1 tsKey ∧
      (run ⟨0, [wName]⟩ (some (-5)) [(wTickOk, 0)]).2 = 1) :=
  ⟨⟨by decide, by decide⟩,
    c10_duration_break_after_first_sample ⟨0, [wName]⟩ (by decide) (some (-5))
      [(wTickOk, 0)] (by decide)⟩

end ProcMon
